import Mathlib

/-!
Verification of the interview-agent server (`agent.js`): a shallow embedding
of its pure/stateful core — numeric clamping and score mapping, weighted
aggregation, JSON extraction, assessor-result normalization, disagreement
comparison, the retry loop of `callChatJSON`, and the session state machine
behind `/api/answer` and `/api/finish` — together with theorems settling the
specification claims.

JavaScript numbers are modelled as exact rationals (`ℚ`); every arithmetic
operation performed by the code on the relevant value ranges is exact in
binary floating point, so the rational model is faithful.  `Math.round` is
`jsRound` (round half toward +∞), and a value that reaches `clampInt` is
either a finite number (`JsNum.num`) or something whose `parseInt` fallback
yields `NaN` (`JsNum.nan`).
-/

namespace InterviewAgent

/-- JS `Math.round`: rounds half toward +∞ (`Math.round(5.5) = 6`,
    `Math.round(-2.5) = -2`), i.e. `⌊q + 1/2⌋`. -/
def jsRound (q : ℚ) : ℤ := ⌊q + 1/2⌋

/-- The observable states of a value fed to `clampInt`: either it resolves to
a finite number `q` (a finite JS number, or a string whose `parseInt`
succeeds), or both `Number.isFinite` and `parseInt` fail (`NaN`, `Infinity`,
`undefined`, unparseable strings, objects, …). -/
inductive JsNum where
  | num (q : ℚ)
  | nan
deriving DecidableEq, Repr

/-- `agent.js` `clampInt(n, min, max)`:
```js
const x = Number.isFinite(n) ? n : parseInt(n, 10);
if (!Number.isFinite(x)) return min;
return Math.max(min, Math.min(max, Math.round(x)));
``` -/
def clampInt (n : JsNum) (mn mx : ℤ) : ℤ :=
  match n with
  | .num q => max mn (min mx (jsRound q))
  | .nan => mn

/-- `agent.js` `score1to9_to_0to100`:
```js
const s = clampInt(score1to9, 1, 9);
return Math.round(((s - 1) / 8) * 100);
``` -/
def score1to9_to_0to100 (score1to9 : JsNum) : ℤ :=
  jsRound ((((clampInt score1to9 1 9 : ℤ) : ℚ) - 1) / 8 * 100)

/-- One entry of the skills matrix: `{ name, weight }`. -/
structure SkillDef where
  name : String
  weight : ℚ
deriving DecidableEq, Repr

/-- The skills matrix `{ role, skills }`. -/
structure MatrixT where
  role : String
  skills : List SkillDef
deriving DecidableEq, Repr

/-- A normalized per-skill score as produced by `normalizeAssessorResult`. -/
structure SkillScore where
  skill : String
  score_1_to_9 : ℤ
  confidence_low_med_high : String
  assessor_stance : String
  why_this_score : String
  what_was_missing_for_next_level : String
  evidence_bullets : List String
  risks : List String
  followups : List String
deriving DecidableEq, Repr

/-- JS `new Map(entries)` lookup: the **last** binding of a key wins. -/
def jsMapGet {β : Type} (entries : List (String × β)) (key : String) : Option β :=
  (entries.reverse.find? (fun p => p.1 == key)).map (·.2)

/-- `agent.js` `weightedSkillsScore0to100(skillScores, skills)`:
```js
const wMap = new Map(skills.map((s) => [s.name, s.weight]));
let totalW = 0; let weighted = 0;
for (const ss of skillScores) {
  const w = wMap.get(ss.skill) ?? 0;
  totalW += w; weighted += w * ss.score_1_to_9;
}
if (totalW <= 0) return 0;
const avg = weighted / totalW;
return score1to9_to_0to100(avg);
``` -/
def weightedSkillsScore0to100 (skillScores : List SkillScore) (skills : List SkillDef) : ℤ :=
  let wMap := skills.map (fun s => (s.name, s.weight))
  let acc := skillScores.foldl
    (fun (a : ℚ × ℚ) ss =>
      let w := (jsMapGet wMap ss.skill).getD 0
      (a.1 + w, a.2 + w * (ss.score_1_to_9 : ℚ)))
    (0, 0)
  let totalW := acc.1
  let weighted := acc.2
  if totalW ≤ 0 then 0
  else score1to9_to_0to100 (.num (weighted / totalW))

/-- The weight the code looks up for a skill name, default `0`. -/
def weightOf (skills : List SkillDef) (name : String) : ℚ :=
  (jsMapGet (skills.map (fun s => (s.name, s.weight))) name).getD 0

/-! ### JSON extraction: the two `cleanJSON` functions -/

/-- The backtick character (code point 96). -/
def btick : Char := Char.ofNat 96

/-- Whitespace as matched by JS `\s` and `String.prototype.trim`
(ASCII portion: space, tab, newline, carriage return, vertical tab,
form feed). -/
def isJsWs (c : Char) : Bool := c.isWhitespace || c = '\x0b' || c = '\x0c'

/-- JS `String.prototype.trim` on a character list. -/
def trimChars (l : List Char) : List Char :=
  ((l.dropWhile isJsWs).reverse.dropWhile isJsWs).reverse

/-- JS `String.prototype.trim` on a string. -/
def jsTrim (s : String) : String := String.mk (trimChars s.toList)

/-- The four characters of `json`, for the case-insensitive fence check. -/
def jsonChars : List Char := ['j', 's', 'o', 'n']

/-- `t.replace(/^\s*` + `{1,3}\s*json\s*/i, "")`: if the string begins with
optional whitespace, a run of one to three backticks, optional whitespace and
`json` in any letter case, that prefix (with the whitespace following `json`)
is removed; otherwise the string is returned unchanged.  A run of four or
more backticks never matches (the quantifier is contiguous), which the
`k ≤ 3` guard reflects. -/
def stripLeadJsonFence (l : List Char) : List Char :=
  let l1 := l.dropWhile isJsWs
  let k := (l1.takeWhile (· = btick)).length
  if 1 ≤ k ∧ k ≤ 3 then
    let l2 := (l1.drop k).dropWhile isJsWs
    if (l2.take 4).map Char.toLower = jsonChars then (l2.drop 4).dropWhile isJsWs
    else l
  else l

/-- `t.replace(/^\s*` + `{1,3}\s*/i, "")`: strips optional whitespace, up to
three leading backticks, and the whitespace after them; unchanged when no
backtick follows the leading whitespace. -/
def stripLeadFence (l : List Char) : List Char :=
  let l1 := l.dropWhile isJsWs
  let k := (l1.takeWhile (· = btick)).length
  if 1 ≤ k then (l1.drop (min k 3)).dropWhile isJsWs else l

/-- `t.replace(/\s*` + `{1,3}\s*$/i, "")`: the mirror-image strip at the end
of the string, realized on the reversed list. -/
def stripTrailFence (l : List Char) : List Char :=
  let r1 := l.reverse.dropWhile isJsWs
  let k := (r1.takeWhile (· = btick)).length
  if 1 ≤ k then ((r1.drop (min k 3)).dropWhile isJsWs).reverse else l

/-- JS `indexOf` for a single character (`none` for `-1`). -/
def firstIdxOf (l : List Char) (c : Char) : Option ℕ := l.findIdx? (· = c)

/-- JS `lastIndexOf` for a single character (`none` for `-1`). -/
def lastIdxOf (l : List Char) (c : Char) : Option ℕ :=
  (l.reverse.findIdx? (· = c)).map (fun k => l.length - 1 - k)

/-- The fence-stripping pipeline both `cleanJSON` variants share:
`trim`, strip `^\s*` + `(backticks) json`, strip leading backticks, strip
trailing backticks. -/
def cleanCore (l : List Char) : List Char :=
  stripTrailFence (stripLeadFence (stripLeadJsonFence (trimChars l)))

/-- Server `cleanJSON` (`agent.js` lines 114–123): after fence stripping it
slices from the first `{` to the last `}` inclusive, but only when the
closing index is strictly greater than the opening one
(`a !== -1 && b !== -1 && b > a`), and trims the result. -/
def cleanJSON (s : String) : String :=
  let t := cleanCore s.toList
  let t2 :=
    match firstIdxOf t '{', lastIdxOf t '}' with
    | some a, some b => if a < b then (t.drop a).take (b + 1 - a) else t
    | _, _ => t
  String.mk (trimChars t2)

/-- Assessment-module `cleanJSON` (lines 1110–1119): identical except that it
slices whenever both braces exist (`a !== -1 && b !== -1`), with no `b > a`
requirement. -/
def Assessment.cleanJSON (s : String) : String :=
  let t := cleanCore s.toList
  let t2 :=
    match firstIdxOf t '{', lastIdxOf t '}' with
    | some a, some b => (t.drop a).take (b + 1 - a)
    | _, _ => t
  String.mk (trimChars t2)

/-! #### A JSON syntax, to state what a "well-formed JSON object" is -/

/-- JSON values. -/
inductive Json where
  | null
  | bool (b : Bool)
  | num (n : ℤ)
  | str (s : String)
  | arr (elems : List Json)
  | obj (fields : List (String × Json))

/-- Serialize a JSON string literal, escaping the characters that must be
escaped. -/
def escapeString (s : String) : List Char :=
  '"' :: (s.toList.foldr
    (fun c acc =>
      (if c = '"' then ['\\', '"']
       else if c = '\\' then ['\\', '\\']
       else if c = '\n' then ['\\', 'n']
       else if c = '\t' then ['\\', 't']
       else if c = '\r' then ['\\', 'r']
       else [c]) ++ acc)
    ['"'])

mutual

/-- Serialize a `Json` value with no added whitespace. -/
def Json.render : Json → List Char
  | .null => "null".toList
  | .bool true => "true".toList
  | .bool false => "false".toList
  | .num n => (toString n).toList
  | .str s => escapeString s
  | .arr elems => '[' :: (Json.renderElems elems ++ [']'])
  | .obj fields => '{' :: (Json.renderFields fields ++ ['}'])

/-- Comma-separated serialization of array elements. -/
def Json.renderElems : List Json → List Char
  | [] => []
  | [x] => x.render
  | x :: y :: rest => x.render ++ ',' :: Json.renderElems (y :: rest)

/-- Comma-separated serialization of object members. -/
def Json.renderFields : List (String × Json) → List Char
  | [] => []
  | [(k, v)] => escapeString k ++ ':' :: v.render
  | (k, v) :: p :: rest =>
      escapeString k ++ ':' :: v.render ++ ',' :: Json.renderFields (p :: rest)

end

/-- A `Json` value rendered as a string. -/
def Json.renderString (j : Json) : String := String.mk j.render

/-- The shape of a string that embeds a brace-delimited body `mid` between a
prefix free of `{` and a suffix free of `}`. -/
def Shape (mid l : List Char) : Prop :=
  ∃ a b, l = a ++ '{' :: (mid ++ '}' :: b) ∧ '{' ∉ a ∧ '}' ∉ b

/-- After fence stripping, either one of the braces is missing or the first
`{` comes strictly before the last `}` — the situation in which the two
`cleanJSON` variants take the same branch. -/
def braceOrderOk (t : List Char) : Bool :=
  match firstIdxOf t '{', lastIdxOf t '}' with
  | some a, some b => a < b
  | _, _ => true

/-! ### Assessor-result normalization -/

/-- JS `x || default` on an optional string field: `undefined`, `null` and
the empty string are falsy. -/
def jsOrStr (x : Option String) (d : String) : String :=
  match x with
  | some s => if s = "" then d else s
  | none => d

/-- JS `a ?? b` applied to the two candidate score fields
(`x.score_1_to_9 ?? x.score`); when both are nullish, `clampInt(undefined)`
resolves to `NaN`. -/
def jsNullishNum (a b : Option JsNum) : JsNum :=
  match a with
  | some v => v
  | none =>
    match b with
    | some v => v
    | none => .nan

/-- A raw per-skill entry of an assessor's JSON output: every field is
optional at this boundary. -/
structure RawSkill where
  skill : String
  score_1_to_9 : Option JsNum
  score : Option JsNum
  confidence_low_med_high : Option String
  assessor_stance : Option String
  why_this_score : Option String
  what_was_missing_for_next_level : Option String
  evidence_bullets : Option (List String)
  risks : Option (List String)
  followups : Option (List String)
deriving DecidableEq, Repr

/-- A raw assessor result.  `skill_scores = none` models both a missing and a
non-array field: the code guards with
`Array.isArray(raw.skill_scores) ? raw.skill_scores : []`. -/
structure RawResult where
  recommendation : Option String
  skill_scores : Option (List RawSkill)
  exercise_score_1_to_9 : Option JsNum
  exercise_why_this_score : Option String
  exercise_what_was_missing_for_next_level : Option String
  exercise_evidence_bullets : Option (List String)
  summary : Option (List String)
deriving DecidableEq, Repr

/-- A normalized assessment result. -/
structure NormResult where
  recommendation : String
  skill_scores : List SkillScore
  exercise_score_1_to_9 : ℤ
  exercise_why_this_score : String
  exercise_what_was_missing_for_next_level : String
  exercise_evidence_bullets : List String
  summary : List String
deriving DecidableEq, Repr

/-- The default `SkillScore` the normalizer synthesizes for a matrix skill
with no matching raw entry (`agent.js` lines 396–409). -/
def defaultSkillScore (name stanceLabel : String) : SkillScore :=
  { skill := name
    score_1_to_9 := 1
    confidence_low_med_high := "low"
    assessor_stance := stanceLabel
    why_this_score := "Insufficient evidence in transcript/exercise."
    what_was_missing_for_next_level :=
      "Provide a concrete example: tools used, steps taken, measurable outcome, validation, and failure handling."
    evidence_bullets := ["No evidence captured for this skill."]
    risks := ["Evidence gap", "Unverified capability"]
    followups := ["Give a specific example you personally delivered.",
      "How did you validate and handle failures?"] }

/-- The callback `skillNames.map(...)` applies per matrix skill name
(`agent.js` lines 394–422): look up the raw entry keyed by trimmed skill
name; synthesize the default record when absent, otherwise clamp the score,
default the enum fields and truncate the lists. -/
def normEntry (stanceLabel : String) (entryMap : List (String × RawSkill))
    (name : String) : SkillScore :=
  match jsMapGet entryMap name with
  | none => defaultSkillScore name stanceLabel
  | some x =>
    { skill := name
      score_1_to_9 := clampInt (jsNullishNum x.score_1_to_9 x.score) 1 9
      confidence_low_med_high := jsOrStr x.confidence_low_med_high "medium"
      assessor_stance := jsOrStr x.assessor_stance stanceLabel
      why_this_score := jsOrStr x.why_this_score ""
      what_was_missing_for_next_level := jsOrStr x.what_was_missing_for_next_level ""
      evidence_bullets := (x.evidence_bullets.getD []).take 3
      risks := (x.risks.getD []).take 2
      followups := (x.followups.getD []).take 2 }

/-- `agent.js` `normalizeAssessorResult(matrix, raw, stanceLabel)` (lines
389–435): for each matrix skill name, look up the raw entry whose trimmed
skill name equals it (`new Map` keyed by `String(x.skill || "").trim()`, the
last entry with a key winning); synthesize the default record when absent,
otherwise clamp the score, default the enum fields and truncate the lists. -/
def normalizeAssessorResult (matrix : MatrixT) (raw : RawResult) (stanceLabel : String) :
    NormResult :=
  let skillNames := matrix.skills.map (·.name)
  let incoming := raw.skill_scores.getD []
  let entryMap := incoming.map (fun x => (jsTrim x.skill, x))
  let skill_scores := skillNames.map (normEntry stanceLabel entryMap)
  { recommendation := jsOrStr raw.recommendation "Lean Hire"
    skill_scores := skill_scores
    exercise_score_1_to_9 := clampInt (raw.exercise_score_1_to_9.getD .nan) 1 9
    exercise_why_this_score := jsOrStr raw.exercise_why_this_score ""
    exercise_what_was_missing_for_next_level :=
      jsOrStr raw.exercise_what_was_missing_for_next_level ""
    exercise_evidence_bullets := (raw.exercise_evidence_bullets.getD []).take 3
    summary := (raw.summary.getD []).take 6 }

/-! ### Multi-assessor disagreement comparison: `compareMulti` -/

/-- One element of the list `compareMulti` receives at finish time:
`{ name, model, norm }`. -/
structure MultiEntry where
  name : String
  model : String
  norm : NormResult
deriving DecidableEq, Repr

/-- One disagreement row `{ skill, scores, min, max, spread }`. -/
structure DisagreementRow where
  skill : String
  scores : List ℤ
  min : ℤ
  max : ℤ
  spread : ℤ
deriving DecidableEq, Repr

/-- The value `compareMulti` returns:
`{ rows, biggest_disagreements: rows.slice(0, 5) }`. -/
structure CompareOut where
  rows : List DisagreementRow
  biggest_disagreements : List DisagreementRow
deriving DecidableEq, Repr

/-- `(r.norm.skill_scores || []).find((x) => x.skill === skill)` followed by
`found ? found.score_1_to_9 : 1`. -/
def scoreForSkill (r : MultiEntry) (skill : String) : ℤ :=
  match r.norm.skill_scores.find? (fun x => x.skill == skill) with
  | some found => found.score_1_to_9
  | none => 1

/-- The row `compareMulti` builds for one skill: the per-assessor scores
(first result split off so that `Math.min(...scores)` / `Math.max(...scores)`
are the usual non-empty folds), their min, max, and spread. -/
def buildRow (r0 : MultiEntry) (rest : List MultiEntry) (skill : String) : DisagreementRow :=
  let s0 := scoreForSkill r0 skill
  let srest := rest.map (fun r => scoreForSkill r skill)
  { skill := skill
    scores := s0 :: srest
    min := srest.foldl min s0
    max := srest.foldl max s0
    spread := srest.foldl max s0 - srest.foldl min s0 }

/-- `agent.js` `compareMulti(results)` (lines 216–230): one row per skill of
the first result (empty when there are no results), sorted in place with the
comparator `(a, b) => b.spread - a.spread` — a stable sort per the JS
specification, embedded as `mergeSort` with `le a b ↔ b.spread ≤ a.spread` —
and the first five rows reported as the biggest disagreements. -/
def compareMulti (results : List MultiEntry) : CompareOut :=
  match results with
  | [] => { rows := [], biggest_disagreements := [] }
  | r0 :: rest =>
    let skills := r0.norm.skill_scores.map (·.skill)
    let rows := (skills.map (buildRow r0 rest)).mergeSort
      (fun a b => decide (b.spread ≤ a.spread))
    { rows := rows, biggest_disagreements := rows.take 5 }

/-! ### The structured-call retry loop: `callChatJSON` -/

/-- `pat` occurs as a contiguous run inside `l`. -/
def listIsInfixOf (pat : List Char) : List Char → Bool
  | [] => pat.isEmpty
  | c :: t => pat.isPrefixOf (c :: t) || listIsInfixOf pat t

/-- JS `String.prototype.includes`. -/
def strIncludes (s pat : String) : Bool := listIsInfixOf pat.toList s.toList

/-- JS `String.prototype.toLowerCase` (character-wise). -/
def strToLower (s : String) : String := String.mk (s.toList.map Char.toLower)

/-- The transient-failure classification of `callChatJSON` (lines 160–167):
```js
const is429 = msg.includes("429") || msg.toLowerCase().includes("rate limit");
const isTransient = is429 ||
  msg.toLowerCase().includes("timeout") ||
  msg.toLowerCase().includes("temporarily") ||
  msg.toLowerCase().includes("fetch failed") ||
  msg.toLowerCase().includes("empty content");
``` -/
def isTransientMsg (msg : String) : Bool :=
  (strIncludes msg "429" || strIncludes (strToLower msg) "rate limit")
    || strIncludes (strToLower msg) "timeout"
    || strIncludes (strToLower msg) "temporarily"
    || strIncludes (strToLower msg) "fetch failed"
    || strIncludes (strToLower msg) "empty content"

/-- The `for (attempt = 1; attempt <= maxAttempts; attempt++)` loop of
`callChatJSON` (lines 129–175).  `oracle attempt` is the outcome the
environment produces for that attempt — the parsed JSON value after
extraction and the optional repair call, or the message of the error the
attempt threw (`String(e?.message || e)`, including
"Model returned empty content.").  `remaining` counts the attempts still
allowed (`remaining = maxAttempts - attempt + 1`), so `remaining = 1` means
`attempt === maxAttempts`.  The second component records the delays slept
between attempts, in order (`delay = Math.min(delay * 2, 5000)` after each
sleep, starting at 450). -/
def callChatJSONGo {J : Type} (oracle : ℕ → Except String J) :
    (attempt : ℕ) → (delay : ℕ) → (remaining : ℕ) → Except String J × List ℕ
  | _, _, 0 => (.error "callChatJSON failed unexpectedly.", [])
  | attempt, delay, r + 1 =>
    match oracle attempt with
    | .ok v => (.ok v, [])
    | .error msg =>
      if r == 0 || !isTransientMsg msg then (.error msg, [])
      else
        let rest := callChatJSONGo oracle (attempt + 1) (min (delay * 2) 5000) r
        (rest.1, delay :: rest.2)

/-- `callChatJSON({model, messages, maxAttempts, temperature})`: the retry
loop entered at attempt 1 with initial delay 450 ms. -/
def callChatJSON {J : Type} (oracle : ℕ → Except String J) (maxAttempts : ℕ) :
    Except String J × List ℕ :=
  callChatJSONGo oracle 1 450 maxAttempts

/-- The exponential backoff schedule: the `i`-th sleep (0-based) lasts
`min(d · 2^i, 5000)`. -/
def backoffDelays (d : ℕ) (n : ℕ) : List ℕ :=
  (List.range n).map (fun i => min (d * 2 ^ i) 5000)

/-! ### The interview session state machine -/

/-- One plan item `{ skill, question }`. -/
structure PlanQ where
  skill : String
  question : String
deriving DecidableEq, Repr

/-- One transcript entry `{ skill, question, answer }`. -/
structure QAEntry where
  skill : String
  question : String
  answer : String
deriving DecidableEq, Repr

/-- The decision object `decideFollowup` returns after its own
normalization. -/
structure FollowupDecision where
  need_followup : Bool
  followup_question : Option String
deriving DecidableEq, Repr

/-- A session as stored in the `sessions` map (lines 801–809).
`followupsLeft` is `ℤ` so that non-negativity is a theorem, not a typing
artifact. -/
structure SessionState where
  candidateName : String
  matrix : MatrixT
  planQuestions : List PlanQ
  idx : ℕ
  transcript : List QAEntry
  followupsLeft : ℤ
  createdAt : String
deriving DecidableEq, Repr

/-- The tail of `decideFollowup` (lines 299–302):
```js
return {
  need_followup: !!decision.need_followup,
  followup_question: decision.followup_question || null,
};
``` -/
def decideFollowupNorm (d : FollowupDecision) : FollowupDecision :=
  { need_followup := d.need_followup
    followup_question :=
      match d.followup_question with
      | some q => if q = "" then none else some q
      | none => none }

/-- The response of the `/api/answer` handler. -/
inductive AnswerResp where
  | err (status : ℕ) (msg : String)
  | done
  | next (skill question : String)
deriving DecidableEq, Repr

/-- The `/api/answer` handler (lines 821–852) acting on an existing session,
as a state transformer.  `oracle` is the outcome of the `decideFollowup`
model call; `Except.error` is the thrown/caught error message.  When `idx`
is out of range, reading `q.skill` of `undefined` throws a `TypeError`
before the session is touched (caught by the route's `try`/`catch` into a
500 response). -/
def answerStep (maxFollowups : ℤ) (s : SessionState) (answer : String)
    (oracle : Except String FollowupDecision) : SessionState × AnswerResp :=
  if h : s.idx < s.planQuestions.length then
    let q := s.planQuestions.get ⟨s.idx, h⟩
    let s1 : SessionState :=
      { s with transcript := s.transcript ++ [⟨q.skill, q.question, answer⟩] }
    let advance : SessionState × AnswerResp :=
      let s2 : SessionState := { s1 with idx := s1.idx + 1, followupsLeft := maxFollowups }
      if h2 : s2.idx < s2.planQuestions.length then
        (s2, .next (s2.planQuestions.get ⟨s2.idx, h2⟩).skill
          (s2.planQuestions.get ⟨s2.idx, h2⟩).question)
      else (s2, .done)
    if s1.followupsLeft > 0 ∧ jsTrim answer ≠ "" ∧ jsTrim answer ≠ "[SKIPPED]" then
      match oracle with
      | .error msg => (s1, .err 500 msg)
      | .ok d0 =>
        let d := decideFollowupNorm d0
        match d.need_followup, d.followup_question with
        | true, some fq =>
          ({ s1 with followupsLeft := s1.followupsLeft - 1 }, .next q.skill fq)
        | _, _ => advance
    else advance
  else (s, .err 500 "TypeError: Cannot read properties of undefined (reading 'skill')")

/-- An operation on the session registry, with every model-call outcome
supplied by the environment. -/
inductive Op where
  /-- `/api/start` (lines 793–815): `plan` is `buildInterviewPlan`'s result;
  an empty list covers both the "Interview plan missing questions." throw
  and a failed model call, in which case no session is created. -/
  | start (id : String) (candidateName : String) (matrix : MatrixT)
      (plan : List PlanQ) (createdAt : String)
  /-- `/api/answer` on session `id`. -/
  | answer (id : String) (ans : String) (oracle : Except String FollowupDecision)
  /-- `/api/finish` (lines 957–1085): `ok` is whether the three assessor
  calls and the report write all succeeded; only then is the session
  deleted. -/
  | finish (id : String) (ok : Bool)
  /-- `/api/auto-answer` and `/api/auto-exercise`: they read the session but
  never mutate the registry. -/
  | readOnly

/-- `sessions.get(id)`. -/
def lookupSession (reg : List (String × SessionState)) (id : String) :
    Option SessionState :=
  (reg.find? (fun p => p.1 == id)).map (·.2)

/-- `sessions.set(id, s)` (replaces any previous binding of the key). -/
def setSession (reg : List (String × SessionState)) (id : String) (s : SessionState) :
    List (String × SessionState) :=
  (id, s) :: reg.filter (fun p => !(p.1 == id))

/-- `sessions.delete(id)`. -/
def deleteSession (reg : List (String × SessionState)) (id : String) :
    List (String × SessionState) :=
  reg.filter (fun p => !(p.1 == id))

/-- One registry transition, with `m = MAX_FOLLOWUPS_PER_SKILL`. -/
def stepOp (m : ℤ) (reg : List (String × SessionState)) : Op → List (String × SessionState)
  | .start id candidateName matrix plan createdAt =>
    if plan.isEmpty then reg
    else setSession reg id ⟨candidateName, matrix, plan, 0, [], m, createdAt⟩
  | .answer id ans oracle =>
    match lookupSession reg id with
    | none => reg
    | some s => setSession reg id (answerStep m s ans oracle).1
  | .finish id ok =>
    match lookupSession reg id with
    | none => reg
    | some _ => if ok then deleteSession reg id else reg
  | .readOnly => reg

/-- Run a sequence of operations from the empty registry. -/
def runOps (m : ℤ) (ops : List Op) : List (String × SessionState) :=
  ops.foldl (stepOp m) []

/-- Whether an operation is a `start` with the given session id. -/
def Op.isStartOf : Op → String → Bool
  | .start i _ _ _ _, id => i == id
  | _, _ => false

/-! ### C9: clampInt range and idempotence -/

theorem jsRound_intCast (n : ℤ) : jsRound (n : ℚ) = n := by
  unfold jsRound
  rw [add_comm, Int.floor_add_int]
  norm_num

theorem clampInt_range (n : JsNum) : 1 ≤ clampInt n 1 9 ∧ clampInt n 1 9 ≤ 9 := by
  cases n with
  | num q =>
    refine ⟨le_max_left 1 _, ?_⟩
    have h : min 9 (jsRound q) ≤ 9 := min_le_left _ _
    exact max_le (by norm_num) h
  | nan => exact ⟨le_refl _, by norm_num [clampInt]⟩

/-- C9: for every input `n` (numeric or not), `clampInt(n)` (with the default
bounds 1 and 9) lies in `[1, 9]`, and `clampInt` is idempotent:
`clampInt(clampInt(n)) = clampInt(n)`. -/
theorem clampInt_range_and_idempotent (n : JsNum) :
    1 ≤ clampInt n 1 9 ∧ clampInt n 1 9 ≤ 9 ∧
      clampInt (.num ((clampInt n 1 9 : ℤ) : ℚ)) 1 9 = clampInt n 1 9 := by
  obtain ⟨h1, h9⟩ := clampInt_range n
  refine ⟨h1, h9, ?_⟩
  show max 1 (min 9 (jsRound ((clampInt n 1 9 : ℤ) : ℚ))) = clampInt n 1 9
  rw [jsRound_intCast]
  omega

/-! ### C1: the weighted aggregator -/

theorem foldl_weighted_acc (skillScores : List SkillScore) (skills : List SkillDef)
    (a b : ℚ) :
    skillScores.foldl
      (fun (a : ℚ × ℚ) ss =>
        let w := (jsMapGet (skills.map (fun s => (s.name, s.weight))) ss.skill).getD 0
        (a.1 + w, a.2 + w * (ss.score_1_to_9 : ℚ)))
      (a, b)
    = (a + (skillScores.map (fun ss => weightOf skills ss.skill)).sum,
       b + (skillScores.map (fun ss => weightOf skills ss.skill * (ss.score_1_to_9 : ℚ))).sum) := by
  induction skillScores generalizing a b with
  | nil => simp
  | cons ss rest ih =>
    simp only [List.foldl_cons, List.map_cons, List.sum_cons]
    rw [ih]
    unfold weightOf
    simp only [Prod.mk.injEq]
    constructor <;> ring

/-- C1 (amended): `weightedSkillsScore0to100` computes
`avg = Σ(weight_i × score_i) / Σ(weight_i)` over the skill-score list (weight
defaulting to 0 for skills unknown to the matrix), returns 0 when the total
weight is ≤ 0, and otherwise returns `round(((r − 1)/8) × 100)` where `r` is
the average **rounded to the nearest integer and clamped into [1, 9]** —
not the un-rounded average. -/
theorem weightedSkillsScore0to100_eval (skillScores : List SkillScore) (skills : List SkillDef) :
    weightedSkillsScore0to100 skillScores skills =
      (let totalW : ℚ := (skillScores.map (fun ss => weightOf skills ss.skill)).sum
       let weighted : ℚ :=
         (skillScores.map (fun ss => weightOf skills ss.skill * (ss.score_1_to_9 : ℚ))).sum
       if totalW ≤ 0 then 0
       else jsRound ((((max 1 (min 9 (jsRound (weighted / totalW))) : ℤ) : ℚ) - 1) / 8 * 100)) := by
  simp only [weightedSkillsScore0to100, foldl_weighted_acc, zero_add,
    score1to9_to_0to100, clampInt]

/-- C1 counterexample: with equal weights and scores 5 and 6, the average is
`11/2`; the code first rounds it to `6` and returns `63`, while the claim's
formula `round(((avg − 1)/8) × 100)` on the un-rounded average gives `56`. -/
theorem weightedSkillsScore0to100_counterexample :
    weightedSkillsScore0to100
        [⟨"A", 5, "medium", "strict", "", "", [], [], []⟩,
         ⟨"B", 6, "medium", "strict", "", "", [], [], []⟩]
        [⟨"A", 1⟩, ⟨"B", 1⟩] = 63 ∧
      ((1 * 5 + 1 * 6 : ℚ) / (1 + 1) = 11/2) ∧
      jsRound ((((11 : ℚ)/2 - 1) / 8) * 100) = 56 ∧ (63 : ℤ) ≠ 56 := by
  refine ⟨?_, by norm_num, by norm_num [jsRound], by decide⟩
  simp only [weightedSkillsScore0to100, jsMapGet, score1to9_to_0to100, clampInt,
    List.foldl, List.find?, List.map_cons, List.map_nil, List.reverse_cons,
    List.reverse_nil, List.nil_append, List.cons_append, Option.map, Option.getD,
    String.reduceBEq, List.find?_cons_of_neg, List.find?_cons_of_pos]
  norm_num [jsRound]

/-! #### List lemmas for the extraction proofs -/

theorem dropWhile_append_cons (p : Char → Bool) (a : List Char) (c : Char) (t : List Char)
    (hc : p c = false) :
    List.dropWhile p (a ++ c :: t) = List.dropWhile p a ++ c :: t := by
  induction a with
  | nil => simp [List.dropWhile_cons, hc]
  | cons d a ih =>
    by_cases hd : p d
    · simp [List.dropWhile_cons, hd, ih]
    · simp [List.dropWhile_cons, hd]

theorem takeWhile_append_cons (p : Char → Bool) (a : List Char) (c : Char) (t : List Char)
    (hc : p c = false) :
    List.takeWhile p (a ++ c :: t) = List.takeWhile p a := by
  induction a with
  | nil => simp [List.takeWhile_cons, hc]
  | cons d a ih =>
    by_cases hd : p d
    · simp [List.takeWhile_cons, hd, ih]
    · simp [List.takeWhile_cons, hd]

theorem findIdx?_append_cons (p : Char → Bool) (a : List Char) (c : Char) (t : List Char)
    (hc : p c = true) (ha : ∀ x ∈ a, p x = false) :
    List.findIdx? p (a ++ c :: t) = some a.length := by
  induction a with
  | nil => simp [List.findIdx?_cons, hc]
  | cons d a ih =>
    have hd : p d = false := ha d (by simp)
    simp [List.findIdx?_cons, hd, List.findIdx?_succ, ih (fun x hx => ha x (by simp [hx]))]

theorem rev_shape (a b m : List Char) :
    (a ++ '{' :: (m ++ '}' :: b)).reverse
      = b.reverse ++ '}' :: (m.reverse ++ '{' :: a.reverse) := by
  simp [List.reverse_append]

theorem rev_shape2 (a b m : List Char) :
    (b ++ '}' :: (m ++ '{' :: a)).reverse
      = a.reverse ++ '{' :: (m.reverse ++ '}' :: b.reverse) := by
  simp [List.reverse_append]

theorem not_mem_sublist {c : Char} {l' l : List Char} (h : List.Sublist l' l) (hc : c ∉ l) :
    c ∉ l' := fun hmem => hc (h.subset hmem)

theorem shape_trimChars {m l : List Char} (h : Shape m l) : Shape m (trimChars l) := by
  obtain ⟨a, b, rfl, ha, hb⟩ := h
  unfold trimChars
  rw [dropWhile_append_cons _ _ _ _ (by decide)]
  rw [rev_shape]
  rw [dropWhile_append_cons _ _ _ _ (by decide)]
  rw [rev_shape2]
  simp only [List.reverse_reverse]
  refine ⟨_, _, rfl, ?_, ?_⟩
  · exact not_mem_sublist (List.dropWhile_sublist _) ha
  · intro hmem
    rw [List.mem_reverse] at hmem
    exact (not_mem_sublist (List.dropWhile_sublist _) (by simpa using hb)) hmem

theorem shape_stripLeadJsonFence {m l : List Char} (h : Shape m l) :
    Shape m (stripLeadJsonFence l) := by
  obtain ⟨a, b, rfl, ha, hb⟩ := h
  have hshape : Shape m (a ++ '{' :: (m ++ '}' :: b)) := ⟨a, b, rfl, ha, hb⟩
  unfold stripLeadJsonFence
  dsimp only
  rw [dropWhile_append_cons _ _ _ _ (by decide),
    takeWhile_append_cons _ _ _ _ (by decide)]
  set a1 := List.dropWhile isJsWs a with ha1
  have ha1m : '{' ∉ a1 := not_mem_sublist (List.dropWhile_sublist _) ha
  set k := (List.takeWhile (fun c => c = btick) a1).length with hk
  have hkle : k ≤ a1.length := by
    rw [hk]; exact (List.takeWhile_sublist _).length_le
  by_cases hcond : 1 ≤ k ∧ k ≤ 3
  · rw [if_pos hcond, List.drop_append_of_le_length hkle,
      dropWhile_append_cons _ _ _ _ (by decide)]
    set a2 := List.dropWhile isJsWs (a1.drop k) with ha2
    have ha2m : '{' ∉ a2 :=
      not_mem_sublist (List.dropWhile_sublist _)
        (not_mem_sublist (List.drop_sublist _ _) ha1m)
    by_cases hlen : 4 ≤ a2.length
    · rw [List.take_append_of_le_length hlen]
      by_cases hchk : (a2.take 4).map Char.toLower = jsonChars
      · rw [if_pos hchk, List.drop_append_of_le_length hlen,
          dropWhile_append_cons _ _ _ _ (by decide)]
        exact ⟨_, b, rfl,
          not_mem_sublist (List.dropWhile_sublist _)
            (not_mem_sublist (List.drop_sublist _ _) ha2m), hb⟩
      · rw [if_neg hchk]; exact hshape
    · rw [if_neg ?hfail]
      · exact hshape
      case hfail =>
        intro heq
        have hmem : '{' ∈ (a2 ++ '{' :: (m ++ '}' :: b)).take 4 := by
          rw [List.take_append_eq_append_take,
            List.take_of_length_le (by omega : a2.length ≤ 4)]
          obtain ⟨j, hj⟩ : ∃ j, 4 - a2.length = j + 1 := ⟨3 - a2.length, by omega⟩
          rw [hj, List.take_succ_cons]
          exact List.mem_append_right _ (List.mem_cons_self _ _)
        have : Char.toLower '{' ∈ jsonChars := heq ▸ List.mem_map_of_mem Char.toLower hmem
        revert this; decide
  · rw [if_neg hcond]; exact hshape

theorem shape_stripLeadFence {m l : List Char} (h : Shape m l) :
    Shape m (stripLeadFence l) := by
  obtain ⟨a, b, rfl, ha, hb⟩ := h
  have hshape : Shape m (a ++ '{' :: (m ++ '}' :: b)) := ⟨a, b, rfl, ha, hb⟩
  unfold stripLeadFence
  dsimp only
  rw [dropWhile_append_cons _ _ _ _ (by decide),
    takeWhile_append_cons _ _ _ _ (by decide)]
  set a1 := List.dropWhile isJsWs a with ha1
  have ha1m : '{' ∉ a1 := not_mem_sublist (List.dropWhile_sublist _) ha
  set k := (List.takeWhile (fun c => c = btick) a1).length with hk
  have hkle : min k 3 ≤ a1.length := by
    have : k ≤ a1.length := by
      rw [hk]; exact (List.takeWhile_sublist _).length_le
    omega
  by_cases hcond : 1 ≤ k
  · rw [if_pos hcond, List.drop_append_of_le_length hkle,
      dropWhile_append_cons _ _ _ _ (by decide)]
    exact ⟨_, b, rfl,
      not_mem_sublist (List.dropWhile_sublist _)
        (not_mem_sublist (List.drop_sublist _ _) ha1m), hb⟩
  · rw [if_neg hcond]; exact hshape

theorem shape_stripTrailFence {m l : List Char} (h : Shape m l) :
    Shape m (stripTrailFence l) := by
  obtain ⟨a, b, rfl, ha, hb⟩ := h
  have hshape : Shape m (a ++ '{' :: (m ++ '}' :: b)) := ⟨a, b, rfl, ha, hb⟩
  unfold stripTrailFence
  dsimp only
  rw [rev_shape, dropWhile_append_cons _ _ _ _ (by decide),
    takeWhile_append_cons _ _ _ _ (by decide)]
  set b1 := List.dropWhile isJsWs b.reverse with hb1
  have hb1m : '}' ∉ b1 :=
    not_mem_sublist (List.dropWhile_sublist _) (by simpa using hb)
  set k := (List.takeWhile (fun c => c = btick) b1).length with hk
  have hkle : min k 3 ≤ b1.length := by
    have : k ≤ b1.length := by
      rw [hk]; exact (List.takeWhile_sublist _).length_le
    omega
  by_cases hcond : 1 ≤ k
  · rw [if_pos hcond, List.drop_append_of_le_length hkle,
      dropWhile_append_cons _ _ _ _ (by decide), rev_shape2]
    simp only [List.reverse_reverse]
    refine ⟨_, _, rfl, ha, ?_⟩
    intro hmem
    rw [List.mem_reverse] at hmem
    exact (not_mem_sublist (List.dropWhile_sublist _)
      (not_mem_sublist (List.drop_sublist _ _) hb1m)) hmem
  · rw [if_neg hcond]; exact hshape

theorem shape_cleanCore {m l : List Char} (h : Shape m l) : Shape m (cleanCore l) :=
  shape_stripTrailFence (shape_stripLeadFence (shape_stripLeadJsonFence (shape_trimChars h)))

theorem firstIdxOf_shape {m t : List Char} (a b : List Char)
    (ht : t = a ++ '{' :: (m ++ '}' :: b)) (ha : '{' ∉ a) :
    firstIdxOf t '{' = some a.length := by
  subst ht
  refine findIdx?_append_cons _ _ _ _ (by decide) ?_
  intro x hx
  simp only [decide_eq_false_iff_not]
  rintro rfl
  exact ha hx

theorem lastIdxOf_shape {m t : List Char} (a b : List Char)
    (ht : t = a ++ '{' :: (m ++ '}' :: b)) (hb : '}' ∉ b) :
    lastIdxOf t '}' = some (a.length + m.length + 1) := by
  subst ht
  unfold lastIdxOf
  have hfind : List.findIdx? (fun x => decide (x = '}'))
      ((a ++ '{' :: (m ++ '}' :: b)).reverse) = some b.reverse.length := by
    rw [rev_shape]
    refine findIdx?_append_cons _ _ _ _ (by decide) ?_
    intro x hx
    simp only [decide_eq_false_iff_not]
    rintro rfl
    exact hb (List.mem_reverse.mp hx)
  rw [hfind]
  simp only [Option.map_some', List.length_reverse, List.length_append,
    List.length_cons]
  congr 1
  omega

theorem trimChars_braces (m : List Char) :
    trimChars ('{' :: (m ++ ['}'])) = '{' :: (m ++ ['}']) := by
  unfold trimChars
  have h1 : '{' :: (m ++ ['}']) = [] ++ '{' :: (m ++ '}' :: []) := by simp
  rw [h1, dropWhile_append_cons _ _ _ _ (by decide), rev_shape,
    dropWhile_append_cons _ _ _ _ (by decide), rev_shape2]
  simp

/-- On a string of `Shape m`, the server slice-and-trim step recovers exactly
the brace-delimited body. -/
theorem slice_of_shape {m t : List Char} (h : Shape m t) :
    String.mk (trimChars
      (match firstIdxOf t '{', lastIdxOf t '}' with
        | some a, some b => if a < b then (t.drop a).take (b + 1 - a) else t
        | _, _ => t)) = String.mk ('{' :: (m ++ ['}'])) := by
  obtain ⟨a, b, ht, ha, hb⟩ := h
  rw [firstIdxOf_shape a b ht ha, lastIdxOf_shape a b ht hb]
  have hlt : a.length < a.length + m.length + 1 := by omega
  simp only [hlt, if_true]
  subst ht
  have hdrop : ((a ++ '{' :: (m ++ '}' :: b)).drop a.length) = '{' :: (m ++ '}' :: b) :=
    List.drop_left a _
  rw [hdrop]
  have hidx : a.length + m.length + 1 + 1 - a.length = m.length + 2 := by omega
  rw [hidx]
  have htake : ('{' :: (m ++ '}' :: b)).take (m.length + 2) = '{' :: (m ++ ['}']) := by
    rw [List.take_succ_cons]
    congr 1
    rw [List.take_append_eq_append_take, List.take_of_length_le (by omega)]
    congr 1
    have : m.length + 1 - m.length = 1 := by omega
    rw [this]
    rfl
  rw [htake, trimChars_braces]

/-- `Json.render` of an object starts with `{` and ends with `}` around the
rendered members. -/
theorem render_obj_eq (kvs : List (String × Json)) :
    (Json.obj kvs).render = '{' :: (Json.renderFields kvs ++ ['}']) := by
  rw [Json.render]

/-- C4 (amended): for every well-formed JSON object and every surrounding
context whose prefix contains no `{` and whose suffix contains no `}` —
which includes all code-fence decorations and ordinary prose without stray
braces — `cleanJSON` recovers exactly the rendered JSON object,
byte-for-byte.  (With a stray `{` in the prefix, recovery fails; see the
counterexample.) -/
theorem cleanJSON_recovers (kvs : List (String × Json)) (p q : String)
    (hp : '{' ∉ p.data) (hq : '}' ∉ q.data) :
    cleanJSON (p ++ (Json.obj kvs).renderString ++ q) = (Json.obj kvs).renderString := by
  have hdata : (p ++ (Json.obj kvs).renderString ++ q).data
      = p.data ++ (Json.renderFields kvs ++ ['}'] ++ q.data
        |> fun rest => '{' :: rest) := by
    show (p ++ (Json.obj kvs).renderString ++ q).data = _
    rw [String.data_append, String.data_append]
    show p.data ++ (Json.obj kvs).render ++ q.data = _
    rw [render_obj_eq]
    simp
  have hshape : Shape (Json.renderFields kvs) (cleanCore (p ++ (Json.obj kvs).renderString ++ q).toList) := by
    apply shape_cleanCore
    refine ⟨p.data, q.data, ?_, hp, hq⟩
    show (p ++ (Json.obj kvs).renderString ++ q).data = _
    rw [hdata]
    simp
  unfold cleanJSON
  rw [slice_of_shape hshape]
  show _ = String.mk (Json.obj kvs).render
  rw [render_obj_eq]

/-- C4 witness: the theorem applied to the object `{"a":1}` wrapped in a
` ```json ` code fence. -/
theorem cleanJSON_recovers_witness :
    '{' ∉ ("```json\n".data) ∧ '}' ∉ ("\n```".data) ∧
      cleanJSON ("```json\n" ++ (Json.obj [("a", Json.num 1)]).renderString ++ "\n```")
        = (Json.obj [("a", Json.num 1)]).renderString :=
  ⟨by decide, by decide,
    cleanJSON_recovers [("a", Json.num 1)] "```json\n" "\n```" (by decide) (by decide)⟩

/-- C4 counterexample: the claim quantifies over **arbitrary** surrounding
text, but a prefix containing a stray `{` breaks recovery: around the
well-formed object `{"a":1}` the prefix `"{oops "` makes `cleanJSON` return
the text from the stray brace on, not the object. -/
theorem cleanJSON_counterexample :
    (Json.obj [("a", Json.num 1)]).renderString = "\x7b\"a\":1\x7d" ∧
      cleanJSON ("\x7boops " ++ "\x7b\"a\":1\x7d" ++ "") = "\x7boops \x7b\"a\":1\x7d" ∧
      "\x7boops \x7b\"a\":1\x7d" ≠ "\x7b\"a\":1\x7d" := by
  refine ⟨?_, ?_, by decide⟩
  · show String.mk (Json.obj [("a", Json.num 1)]).render = _
    rw [render_obj_eq]
    simp [Json.renderFields, Json.render, escapeString]
    decide
  · decide

/-! ### C10: the two `cleanJSON` variants -/

/-- C10 (amended): the two extraction functions agree on every input except
those in which, after fence stripping, both braces occur but the last `}`
comes before the first `{`; on those inputs the server variant returns the
stripped text unchanged while the assessment-module variant returns the
empty string. -/
theorem cleanJSON_variants_agree (s : String)
    (h : braceOrderOk (cleanCore s.toList) = true) :
    cleanJSON s = Assessment.cleanJSON s := by
  unfold cleanJSON Assessment.cleanJSON
  unfold braceOrderOk at h
  dsimp only
  cases hA : firstIdxOf (cleanCore s.toList) '{' with
  | none => simp [hA]
  | some a =>
    cases hB : lastIdxOf (cleanCore s.toList) '}' with
    | none => simp [hA, hB]
    | some b =>
      rw [hA, hB] at h
      simp only [decide_eq_true_eq] at h
      simp [hA, hB, h]

/-- C10 witness: agreement evaluated on a fenced JSON payload. -/
theorem cleanJSON_variants_agree_witness :
    braceOrderOk (cleanCore ("```json \x7b\"a\": 1\x7d ```".toList)) = true ∧
      cleanJSON "```json \x7b\"a\": 1\x7d ```"
        = Assessment.cleanJSON "```json \x7b\"a\": 1\x7d ```" :=
  ⟨by decide, cleanJSON_variants_agree "```json \x7b\"a\": 1\x7d ```" (by decide)⟩

/-- C10 counterexample: on the input `"\x7d\x7b"` the server variant returns the
text unchanged (the `b > a` guard fails) while the assessment-module variant
slices to the empty string, so the two functions are not extensionally
equal. -/
theorem cleanJSON_variants_counterexample :
    cleanJSON "\x7d\x7b" = "\x7d\x7b" ∧ Assessment.cleanJSON "\x7d\x7b" = "" ∧
      cleanJSON "\x7d\x7b" ≠ Assessment.cleanJSON "\x7d\x7b" := by
  refine ⟨by decide, by decide, by decide⟩

/-! ### C2 / C8: the assessor-result normalizer -/

theorem normEntry_skill (stance : String) (em : List (String × RawSkill)) (name : String) :
    (normEntry stance em name).skill = name := by
  unfold normEntry
  cases jsMapGet em name <;> rfl

theorem normalize_skill_scores_eq (matrix : MatrixT) (raw : RawResult) (stance : String) :
    (normalizeAssessorResult matrix raw stance).skill_scores
      = (matrix.skills.map (·.name)).map
          (normEntry stance ((raw.skill_scores.getD []).map (fun x => (jsTrim x.skill, x)))) :=
  rfl

/-- C2: for every raw assessor output (including one whose `skill_scores` is
missing, non-array or empty) and every matrix, the normalized result has
exactly one entry per matrix skill name, in matrix order (hence no
duplicates whenever the matrix names are distinct, and no omissions), and
every per-skill score as well as the exercise score lies in `[1, 9]`. -/
theorem normalizeAssessorResult_complete (matrix : MatrixT) (raw : RawResult) (stance : String) :
    ((normalizeAssessorResult matrix raw stance).skill_scores.map (·.skill)
        = matrix.skills.map (·.name))
    ∧ (∀ e ∈ (normalizeAssessorResult matrix raw stance).skill_scores,
        1 ≤ e.score_1_to_9 ∧ e.score_1_to_9 ≤ 9)
    ∧ ((matrix.skills.map (·.name)).Nodup →
        ((normalizeAssessorResult matrix raw stance).skill_scores.map (·.skill)).Nodup)
    ∧ 1 ≤ (normalizeAssessorResult matrix raw stance).exercise_score_1_to_9
    ∧ (normalizeAssessorResult matrix raw stance).exercise_score_1_to_9 ≤ 9 := by
  have hmap : (normalizeAssessorResult matrix raw stance).skill_scores.map (·.skill)
      = matrix.skills.map (·.name) := by
    rw [normalize_skill_scores_eq, List.map_map]
    have hcomp : ((fun e : SkillScore => e.skill) ∘
        normEntry stance ((raw.skill_scores.getD []).map (fun x => (jsTrim x.skill, x))))
        = id := funext fun name => normEntry_skill _ _ name
    rw [hcomp, List.map_id]
  refine ⟨hmap, ?_, fun h => hmap ▸ h, ?_, ?_⟩
  · intro e he
    rw [normalize_skill_scores_eq] at he
    obtain ⟨name, _, rfl⟩ := List.mem_map.mp he
    unfold normEntry
    cases jsMapGet _ name with
    | none => exact ⟨le_refl _, by norm_num [defaultSkillScore]⟩
    | some x => exact clampInt_range _
  · exact (clampInt_range _).1
  · exact (clampInt_range _).2

/-- C2 witness: evaluated on a two-skill matrix and a raw result whose only
entry covers skill `A` with no usable fields, discharging the distinctness
hypothesis of the no-duplicates conjunct. -/
theorem normalizeAssessorResult_complete_witness :
    ((MatrixT.mk "role" [⟨"A", 1⟩, ⟨"B", 2⟩]).skills.map (·.name)).Nodup ∧
      ((normalizeAssessorResult (MatrixT.mk "role" [⟨"A", 1⟩, ⟨"B", 2⟩])
          (RawResult.mk none (some [RawSkill.mk "A" none none none none none none none none none])
            none none none none none)
          "strict").skill_scores.map (·.skill)).Nodup :=
  ⟨by decide,
    (normalizeAssessorResult_complete (MatrixT.mk "role" [⟨"A", 1⟩, ⟨"B", 2⟩])
      (RawResult.mk none (some [RawSkill.mk "A" none none none none none none none none none])
        none none none none none)
      "strict").2.2.1 (by decide)⟩

/-- C8: for every matrix skill name with no raw entry whose trimmed skill
name equals it, the normalized result contains the synthesized default entry
for that skill — score 1, confidence `low`, the single no-evidence bullet,
exactly two generic risks and exactly two generic follow-ups — and every
entry of the output carrying that skill name is that default record. -/
theorem normalizeAssessorResult_default_entry (matrix : MatrixT) (raw : RawResult)
    (stance name : String)
    (hmem : name ∈ matrix.skills.map (·.name))
    (habsent : ∀ x ∈ raw.skill_scores.getD [], jsTrim x.skill ≠ name) :
    defaultSkillScore name stance ∈ (normalizeAssessorResult matrix raw stance).skill_scores
    ∧ (∀ e ∈ (normalizeAssessorResult matrix raw stance).skill_scores,
        e.skill = name → e = defaultSkillScore name stance)
    ∧ (defaultSkillScore name stance).score_1_to_9 = 1
    ∧ (defaultSkillScore name stance).confidence_low_med_high = "low"
    ∧ (defaultSkillScore name stance).evidence_bullets
        = ["No evidence captured for this skill."]
    ∧ (defaultSkillScore name stance).risks.length = 2
    ∧ (defaultSkillScore name stance).followups.length = 2 := by
  have hnone : jsMapGet ((raw.skill_scores.getD []).map (fun x => (jsTrim x.skill, x))) name
      = none := by
    unfold jsMapGet
    have hfind : List.find? (fun p => p.1 == name)
        ((raw.skill_scores.getD []).map (fun x => (jsTrim x.skill, x))).reverse = none := by
      rw [List.find?_eq_none]
      intro p hp
      rw [List.mem_reverse, List.mem_map] at hp
      obtain ⟨x, hx, rfl⟩ := hp
      simpa using habsent x hx
    rw [hfind]
    rfl
  have hentry : normEntry stance
      ((raw.skill_scores.getD []).map (fun x => (jsTrim x.skill, x))) name
      = defaultSkillScore name stance := by
    unfold normEntry
    rw [hnone]
  refine ⟨?_, ?_, rfl, rfl, rfl, rfl, rfl⟩
  · rw [normalize_skill_scores_eq]
    exact List.mem_map.mpr ⟨name, hmem, hentry⟩
  · intro e he hskill
    rw [normalize_skill_scores_eq] at he
    obtain ⟨n, _, rfl⟩ := List.mem_map.mp he
    rw [normEntry_skill] at hskill
    subst hskill
    exact hentry

/-! ### C7: compareMulti ordering -/

theorem buildRow_skill (r0 : MultiEntry) (rest : List MultiEntry) (s : String) :
    (buildRow r0 rest s).skill = s := rfl

/-- C7: for every non-empty list of normalized results, `compareMulti`
builds one row per skill of the first result, each row collecting one score
per result (a result lacking the skill contributing 1, via `scoreForSkill`),
returns the rows sorted in descending order of spread with any rows of equal
spread kept in the original skill order (filter-stability), and reports the
first five sorted rows as `biggest_disagreements`. -/
theorem compareMulti_spec (r0 : MultiEntry) (rest : List MultiEntry) :
    (((r0.norm.skill_scores.map (·.skill)).map (buildRow r0 rest)).map (·.skill)
        = r0.norm.skill_scores.map (·.skill))
    ∧ (∀ s, (buildRow r0 rest s).scores = (r0 :: rest).map (fun r => scoreForSkill r s))
    ∧ (compareMulti (r0 :: rest)).rows.Perm
        ((r0.norm.skill_scores.map (·.skill)).map (buildRow r0 rest))
    ∧ (compareMulti (r0 :: rest)).rows.Pairwise (fun a b => b.spread ≤ a.spread)
    ∧ (∀ v : ℤ, (compareMulti (r0 :: rest)).rows.filter (fun row => row.spread == v)
        = ((r0.norm.skill_scores.map (·.skill)).map (buildRow r0 rest)).filter
            (fun row => row.spread == v))
    ∧ (compareMulti (r0 :: rest)).biggest_disagreements
        = (compareMulti (r0 :: rest)).rows.take 5 := by
  have htrans : ∀ a b c : DisagreementRow,
      decide (b.spread ≤ a.spread) → decide (c.spread ≤ b.spread) →
        decide (c.spread ≤ a.spread) = true := by
    intro a b c hab hbc
    simp only [decide_eq_true_eq] at *
    omega
  have htotal : ∀ a b : DisagreementRow,
      decide (b.spread ≤ a.spread) || decide (a.spread ≤ b.spread) := by
    intro a b
    simp only [Bool.or_eq_true, decide_eq_true_eq]
    omega
  have hrows : (compareMulti (r0 :: rest)).rows
      = ((r0.norm.skill_scores.map (·.skill)).map (buildRow r0 rest)).mergeSort
          (fun a b => decide (b.spread ≤ a.spread)) := rfl
  refine ⟨?_, fun s => rfl, ?_, ?_, ?_, rfl⟩
  · rw [List.map_map]
    have hcomp : ((fun e : DisagreementRow => e.skill) ∘ buildRow r0 rest) = id :=
      funext fun s => buildRow_skill r0 rest s
    rw [hcomp, List.map_id]
  · rw [hrows]
    exact List.mergeSort_perm _ _
  · rw [hrows]
    exact (List.sorted_mergeSort htrans htotal _).imp
      (fun hab => by simpa using hab)
  · intro v
    set p : DisagreementRow → Bool := fun row => row.spread == v with hp
    set rows0 := (r0.norm.skill_scores.map (·.skill)).map (buildRow r0 rest) with hrows0
    have hpair : (rows0.filter p).Pairwise (fun a b => decide (b.spread ≤ a.spread)) := by
      apply List.pairwise_of_forall_mem_list
      intro a ha b hb
      have hav : a.spread = v := by simpa [hp] using (List.mem_filter.mp ha).2
      have hbv : b.spread = v := by simpa [hp] using (List.mem_filter.mp hb).2
      simp [hav, hbv]
    have hsub : (rows0.filter p).Sublist
        (rows0.mergeSort (fun a b => decide (b.spread ≤ a.spread))) :=
      List.sublist_mergeSort htrans htotal hpair (List.filter_sublist rows0)
    have hsub2 : ((rows0.filter p).filter p).Sublist
        ((rows0.mergeSort (fun a b => decide (b.spread ≤ a.spread))).filter p) :=
      hsub.filter p
    have hff : (rows0.filter p).filter p = rows0.filter p := by
      simp [List.filter_filter]
    rw [hff] at hsub2
    have hperm : ((rows0.mergeSort (fun a b => decide (b.spread ≤ a.spread))).filter p).Perm
        (rows0.filter p) := (List.mergeSort_perm rows0 _).filter p
    have hlen : (rows0.filter p).length
        = ((rows0.mergeSort (fun a b => decide (b.spread ≤ a.spread))).filter p).length :=
      hperm.length_eq.symm
    rw [hrows]
    exact (hsub2.eq_of_length hlen).symm

/-- C7 witness: the take-five and per-skill conjuncts of the theorem applied
to a concrete single-assessor list. -/
theorem compareMulti_spec_witness :
    (compareMulti [MultiEntry.mk "A1" "m1"
        (NormResult.mk "Hire" [SkillScore.mk "A" 5 "medium" "strict" "" "" [] [] []]
          5 "" "" [] [])]).biggest_disagreements
      = (compareMulti [MultiEntry.mk "A1" "m1"
          (NormResult.mk "Hire" [SkillScore.mk "A" 5 "medium" "strict" "" "" [] [] []]
            5 "" "" [] [])]).rows.take 5 :=
  (compareMulti_spec (MultiEntry.mk "A1" "m1"
      (NormResult.mk "Hire" [SkillScore.mk "A" 5 "medium" "strict" "" "" [] [] []]
        5 "" "" [] [])) []).2.2.2.2.2

/-- C8 witness: matrix `[A, B]`, raw output containing only skill `A`. -/
theorem normalizeAssessorResult_default_entry_witness :
    "B" ∈ ((MatrixT.mk "role" [⟨"A", 1⟩, ⟨"B", 2⟩]).skills.map (·.name)) ∧
      (∀ x ∈ ((RawResult.mk none
          (some [RawSkill.mk "A" none none none none none none none none none])
          none none none none none).skill_scores.getD []), jsTrim x.skill ≠ "B") ∧
      defaultSkillScore "B" "strict" ∈
        (normalizeAssessorResult (MatrixT.mk "role" [⟨"A", 1⟩, ⟨"B", 2⟩])
          (RawResult.mk none
            (some [RawSkill.mk "A" none none none none none none none none none])
            none none none none none) "strict").skill_scores :=
  ⟨by decide, by decide,
    (normalizeAssessorResult_default_entry (MatrixT.mk "role" [⟨"A", 1⟩, ⟨"B", 2⟩])
      (RawResult.mk none
        (some [RawSkill.mk "A" none none none none none none none none none])
        none none none none none) "strict" "B" (by decide) (by decide)).1⟩

/-! ### C5: the retry loop of `callChatJSON` -/

theorem backoffDelays_cons (d n : ℕ) (hd : d ≤ 5000) :
    d :: backoffDelays (min (d * 2) 5000) n = backoffDelays d (n + 1) := by
  unfold backoffDelays
  rw [List.range_succ_eq_map, List.map_cons, List.map_map]
  congr 1
  · simp [hd]
  · apply List.map_congr_left
    intro i _
    show min (min (d * 2) 5000 * 2 ^ i) 5000 = min (d * 2 ^ (i + 1)) 5000
    rcases le_or_lt (d * 2) 5000 with h | h
    · rw [min_eq_left h]
      ring_nf
    · rw [min_eq_right h.le]
      have h1 : (5000 : ℕ) ≤ 5000 * 2 ^ i :=
        Nat.le_mul_of_pos_right 5000 (Nat.pos_pow_of_pos i (by norm_num))
      have h2 : (5000 : ℕ) ≤ d * 2 ^ (i + 1) := by
        calc (5000 : ℕ) ≤ d * 2 := h.le
        _ ≤ d * 2 * 2 ^ i := Nat.le_mul_of_pos_right _ (Nat.pos_pow_of_pos i (by norm_num))
        _ = d * 2 ^ (i + 1) := by ring
      rw [min_eq_right h1, min_eq_right h2]

theorem callChatJSONGo_spec {J : Type} (oracle : ℕ → Except String J) (k a d r : ℕ)
    (hd : d ≤ 5000) (hk1 : 1 ≤ k) (hk2 : k ≤ r)
    (hprev : ∀ j, a ≤ j → j + 1 < a + k →
      ∃ m, oracle j = .error m ∧ isTransientMsg m = true) :
    (∀ v, oracle (a + k - 1) = .ok v →
      callChatJSONGo oracle a d r = (.ok v, backoffDelays d (k - 1)))
    ∧ (∀ m, oracle (a + k - 1) = .error m →
        (isTransientMsg m = false ∨ k = r) →
        callChatJSONGo oracle a d r = (.error m, backoffDelays d (k - 1))) := by
  induction k generalizing a d r with
  | zero => omega
  | succ k ih =>
    obtain ⟨r', rfl⟩ : ∃ r', r = r' + 1 := ⟨r - 1, by omega⟩
    have hidx : a + (k + 1) - 1 = a + k := by omega
    rcases Nat.eq_zero_or_pos k with hk0 | hkpos
    · subst hk0
      simp only [Nat.add_zero] at hidx
      constructor
      · intro v hv
        rw [hidx] at hv
        show callChatJSONGo oracle a d (r' + 1) = _
        unfold callChatJSONGo
        rw [hv]
        simp [backoffDelays]
      · intro m hm hcond
        rw [hidx] at hm
        unfold callChatJSONGo
        rw [hm]
        have hguard : (r' == 0 || !isTransientMsg m) = true := by
          rcases hcond with h | h
          · simp [h]
          · have : r' = 0 := by omega
            simp [this]
        simp [hguard, backoffDelays]
    · obtain ⟨m0, hm0, htr0⟩ := hprev a (le_refl a) (by omega)
      have hguard : (r' == 0 || !isTransientMsg m0) = false := by
        have : r' ≠ 0 := by omega
        simp [this, htr0]
      have hstep : callChatJSONGo oracle a d (r' + 1)
          = ((callChatJSONGo oracle (a + 1) (min (d * 2) 5000) r').1,
             d :: (callChatJSONGo oracle (a + 1) (min (d * 2) 5000) r').2) := by
        conv_lhs => rw [callChatJSONGo]
        rw [hm0]
        simp [hguard]
      have hd' : min (d * 2) 5000 ≤ 5000 := min_le_right _ _
      have hprev' : ∀ j, a + 1 ≤ j → j + 1 < a + 1 + k →
          ∃ m, oracle j = .error m ∧ isTransientMsg m = true := by
        intro j hj1 hj2
        exact hprev j (by omega) (by omega)
      obtain ⟨ihok, iherr⟩ := ih (a + 1) (min (d * 2) 5000) r' hd' hkpos (by omega) hprev'
      have hidx' : a + 1 + k - 1 = a + k := by omega
      have hdelays : d :: backoffDelays (min (d * 2) 5000) (k - 1) = backoffDelays d k := by
        have : k - 1 + 1 = k := by omega
        rw [backoffDelays_cons _ _ hd, this]
      constructor
      · intro v hv
        rw [hidx] at hv
        rw [hstep, ihok v (by rw [hidx']; exact hv)]
        show (_, d :: backoffDelays _ (k - 1)) = (_, backoffDelays d (k + 1 - 1))
        rw [hdelays]
        simp
      · intro m hm hcond
        rw [hidx] at hm
        have hcond' : isTransientMsg m = false ∨ k = r' := by
          rcases hcond with h | h
          · exact Or.inl h
          · exact Or.inr (by omega)
        rw [hstep, iherr m (by rw [hidx']; exact hm) hcond']
        show (_, d :: backoffDelays _ (k - 1)) = (_, backoffDelays d (k + 1 - 1))
        rw [hdelays]
        simp

/-- C5: within `callChatJSON`, as long as every earlier attempt failed with a
transient message (one containing `429`, `rate limit`, `timeout`,
`temporarily`, `fetch failed` or `empty content`, per `isTransientMsg`), the
loop retries with delays `min(450·2^i, 5000)` — starting at the fixed 450,
doubling each attempt, capped at 5000 — and attempt `k` ends the loop
whenever it succeeds, or fails fatally (non-transient), or is the
`maxAttempts`-th attempt, in the failing cases raising exactly that
attempt's error message with no further sleep. -/
theorem callChatJSON_retry {J : Type} (oracle : ℕ → Except String J)
    (maxAttempts k : ℕ) (hk1 : 1 ≤ k) (hk2 : k ≤ maxAttempts)
    (hprev : ∀ j, 1 ≤ j → j < k →
      ∃ m, oracle j = .error m ∧ isTransientMsg m = true) :
    (∀ v, oracle k = .ok v →
      callChatJSON oracle maxAttempts = (.ok v, backoffDelays 450 (k - 1)))
    ∧ (∀ m, oracle k = .error m →
        (isTransientMsg m = false ∨ k = maxAttempts) →
        callChatJSON oracle maxAttempts = (.error m, backoffDelays 450 (k - 1))) := by
  have h := callChatJSONGo_spec oracle k 1 450 maxAttempts (by norm_num) hk1 hk2
    (fun j hj1 hj2 => hprev j hj1 (by omega))
  have hidx : 1 + k - 1 = k := by omega
  rw [hidx] at h
  exact h

/-- C5 witness: first attempt fails with a timeout (transient), the second
succeeds; the loop returns the success after exactly one 450 ms backoff. -/
theorem callChatJSON_retry_witness :
    isTransientMsg "Connect Timeout Error" = true ∧
      callChatJSON (fun n => if n = 1 then .error "Connect Timeout Error" else .ok (42 : ℕ)) 3
        = (.ok 42, backoffDelays 450 1) :=
  ⟨by decide,
    (callChatJSON_retry (fun n => if n = 1 then .error "Connect Timeout Error" else .ok (42 : ℕ))
      3 2 (by decide) (by decide)
      (fun j hj1 hj2 => by
        have : j = 1 := by omega
        subst this
        exact ⟨"Connect Timeout Error", rfl, by decide⟩)).1 42 rfl⟩

/-! ### C3: a failed follow-up decision and the session state -/

/-- C3 counterexample: the handler pushes the QAEntry onto the transcript
*before* calling `decideFollowup`, so after a failed decision call the
transcript is **not** what it was before the answer was submitted. -/
theorem answer_decision_failure_counterexample :
    (answerStep 1
        (SessionState.mk "Jane" (MatrixT.mk "role" [SkillDef.mk "A" 1])
          [PlanQ.mk "A" "Q?"] 0 [] 1 "t0")
        "an answer" (.error "boom")).1.transcript
      ≠ (SessionState.mk "Jane" (MatrixT.mk "role" [SkillDef.mk "A" 1])
          [PlanQ.mk "A" "Q?"] 0 [] 1 "t0").transcript := by
  decide

/-- C3 (amended): when the follow-up decision call fails while handling a
submitted answer (budget positive, non-empty non-skipped answer), the error
is surfaced to the caller as a 500 with the failure's message, and the
session's cursor (`idx`) and follow-up budget are exactly what they were —
but the submitted answer's QAEntry, appended *before* the decision call,
remains on the transcript. -/
theorem answer_decision_failure_state (m : ℤ) (s : SessionState) (answer msg : String)
    (h : s.idx < s.planQuestions.length)
    (hfl : s.followupsLeft > 0)
    (ht1 : jsTrim answer ≠ "")
    (ht2 : jsTrim answer ≠ "[SKIPPED]") :
    (answerStep m s answer (.error msg)).1.idx = s.idx
    ∧ (answerStep m s answer (.error msg)).1.followupsLeft = s.followupsLeft
    ∧ (answerStep m s answer (.error msg)).1.transcript
        = s.transcript ++ [⟨(s.planQuestions.get ⟨s.idx, h⟩).skill,
            (s.planQuestions.get ⟨s.idx, h⟩).question, answer⟩]
    ∧ (answerStep m s answer (.error msg)).2 = .err 500 msg := by
  unfold answerStep
  rw [dif_pos h]
  dsimp only
  rw [if_pos ⟨hfl, ht1, ht2⟩]
  exact ⟨rfl, rfl, rfl, rfl⟩

/-- C3 witness: the amended theorem applied to a one-question session. -/
theorem answer_decision_failure_state_witness :
    ((SessionState.mk "Jane" (MatrixT.mk "role" [SkillDef.mk "A" 1])
        [PlanQ.mk "A" "Q?"] 0 [] 1 "t0").idx
      < (SessionState.mk "Jane" (MatrixT.mk "role" [SkillDef.mk "A" 1])
          [PlanQ.mk "A" "Q?"] 0 [] 1 "t0").planQuestions.length)
    ∧ ((1 : ℤ) > 0) ∧ jsTrim "hi" ≠ "" ∧ jsTrim "hi" ≠ "[SKIPPED]"
    ∧ (answerStep 1
        (SessionState.mk "Jane" (MatrixT.mk "role" [SkillDef.mk "A" 1])
          [PlanQ.mk "A" "Q?"] 0 [] 1 "t0") "hi" (.error "boom")).1.idx
        = (SessionState.mk "Jane" (MatrixT.mk "role" [SkillDef.mk "A" 1])
            [PlanQ.mk "A" "Q?"] 0 [] 1 "t0").idx :=
  ⟨by decide, by decide, by decide, by decide,
    (answer_decision_failure_state 1
      (SessionState.mk "Jane" (MatrixT.mk "role" [SkillDef.mk "A" 1])
        [PlanQ.mk "A" "Q?"] 0 [] 1 "t0") "hi" "boom"
      (by decide) (by decide) (by decide) (by decide)).1⟩

/-! ### C6: registry invariants and session disposal -/

/-- The per-session invariant: non-negative follow-up budget, cursor within
the plan. -/
def SessionInv (s : SessionState) : Prop :=
  0 ≤ s.followupsLeft ∧ s.idx ≤ s.planQuestions.length

theorem answerStep_inv (m : ℤ) (hm : 0 ≤ m) (s : SessionState) (ans : String)
    (oracle : Except String FollowupDecision) (hs : SessionInv s) :
    SessionInv (answerStep m s ans oracle).1 := by
  obtain ⟨hfl, hidx⟩ := hs
  unfold answerStep
  split
  case isTrue h =>
    dsimp only
    split
    case isTrue hc =>
      cases oracle with
      | error msg => exact ⟨hfl, hidx⟩
      | ok d0 =>
        dsimp only
        split
        · exact ⟨by dsimp only; omega, hidx⟩
        · split
          · exact ⟨hm, by dsimp only; omega⟩
          · exact ⟨hm, by dsimp only; omega⟩
    case isFalse hc =>
      split
      · exact ⟨hm, by dsimp only; omega⟩
      · exact ⟨hm, by dsimp only; omega⟩
  case isFalse h => exact ⟨hfl, hidx⟩

theorem stepOp_inv (m : ℤ) (hm : 0 ≤ m) (reg : List (String × SessionState)) (op : Op)
    (hreg : ∀ p ∈ reg, SessionInv p.2) :
    ∀ p ∈ stepOp m reg op, SessionInv p.2 := by
  cases op with
  | start id candidateName matrix plan createdAt =>
    by_cases hp : plan.isEmpty
    · simpa [stepOp, hp] using hreg
    · intro p hmem
      simp only [stepOp, hp, if_false, setSession, Bool.false_eq_true] at hmem
      rcases List.mem_cons.mp hmem with rfl | hmem'
      · exact ⟨hm, by simp [SessionInv]⟩
      · exact hreg p (List.mem_of_mem_filter hmem')
  | answer id ans oracle =>
    cases hl : lookupSession reg id with
    | none => simpa [stepOp, hl] using hreg
    | some s =>
      have hsmem : s ∈ reg.map (·.2) := by
        unfold lookupSession at hl
        cases hf : reg.find? (fun p => p.1 == id) with
        | none => rw [hf] at hl; simp at hl
        | some p =>
          rw [hf] at hl
          simp only [Option.map_some'] at hl
          have hps : p.2 = s := Option.some.inj hl
          exact hps ▸ List.mem_map_of_mem _ (List.mem_of_find?_eq_some hf)
      obtain ⟨p0, hp0, hp0s⟩ := List.mem_map.mp hsmem
      intro p hmem
      simp only [stepOp, hl, setSession] at hmem
      rcases List.mem_cons.mp hmem with rfl | hmem'
      · exact answerStep_inv m hm s ans oracle (hp0s ▸ hreg p0 hp0)
      · exact hreg p (List.mem_of_mem_filter hmem')
  | finish id ok =>
    cases hl : lookupSession reg id with
    | none => simpa [stepOp, hl] using hreg
    | some s =>
      by_cases hok : ok
      · intro p hmem
        simp only [stepOp, hl, hok, if_true, deleteSession] at hmem
        exact hreg p (List.mem_of_mem_filter hmem)
      · simpa [stepOp, hl, hok] using hreg
  | readOnly => simpa [stepOp] using hreg

theorem foldl_stepOp_inv (m : ℤ) (hm : 0 ≤ m) (ops : List Op) :
    ∀ reg, (∀ p ∈ reg, SessionInv p.2) →
      ∀ p ∈ ops.foldl (stepOp m) reg, SessionInv p.2 := by
  induction ops with
  | nil => intro reg h; simpa using h
  | cons op ops ih =>
    intro reg h
    exact ih _ (stepOp_inv m hm reg op h)

theorem lookupSession_filter_self (reg : List (String × SessionState)) (id : String) :
    lookupSession (reg.filter (fun p => !(p.1 == id))) id = none := by
  unfold lookupSession
  have hfind : (reg.filter (fun p => !(p.1 == id))).find? (fun p => p.1 == id) = none := by
    rw [List.find?_eq_none]
    intro p hp
    have := (List.mem_filter.mp hp).2
    simp only [Bool.not_eq_true'] at this
    simp [this]
  rw [hfind]
  rfl

theorem lookupSession_none_mono (reg : List (String × SessionState)) (id : String)
    (h : lookupSession reg id = none) :
    ∀ p ∈ reg, (p.1 == id) = false := by
  intro p hp
  unfold lookupSession at h
  cases hf : reg.find? (fun p => p.1 == id) with
  | none =>
    have := List.find?_eq_none.mp hf p hp
    simpa using this
  | some q => rw [hf] at h; simp at h

theorem lookup_stepOp_none (m : ℤ) (reg : List (String × SessionState)) (op : Op)
    (id : String) (hnone : lookupSession reg id = none)
    (hop : op.isStartOf id = false) :
    lookupSession (stepOp m reg op) id = none := by
  have hall := lookupSession_none_mono reg id hnone
  cases op with
  | start idS candidateName matrix plan createdAt =>
    by_cases hp : plan.isEmpty
    · simpa [stepOp, hp] using hnone
    · have hne : (idS == id) = false := by simpa [Op.isStartOf] using hop
      simp only [stepOp, hp, if_false, Bool.false_eq_true]
      unfold lookupSession setSession
      rw [List.find?_cons_of_neg _ (by simp [hne])]
      have hfind : (reg.filter (fun p => !(p.1 == idS))).find? (fun p => p.1 == id) = none := by
        rw [List.find?_eq_none]
        intro p hp'
        simp [hall p (List.mem_of_mem_filter hp')]
      rw [hfind]
      rfl
  | answer idS ans oracle =>
    cases hl : lookupSession reg idS with
    | none => simpa [stepOp, hl] using hnone
    | some s =>
      have hne : (idS == id) = false := by
        by_contra hcon
        have : idS = id := by
          have := Bool.not_eq_false _ |>.mp hcon
          simpa using this
        subst this
        rw [hl] at hnone
        exact Option.noConfusion hnone
      simp only [stepOp, hl]
      unfold lookupSession setSession
      rw [List.find?_cons_of_neg _ (by simp [hne])]
      have hfind : (reg.filter (fun p => !(p.1 == idS))).find? (fun p => p.1 == id) = none := by
        rw [List.find?_eq_none]
        intro p hp'
        simp [hall p (List.mem_of_mem_filter hp')]
      rw [hfind]
      rfl
  | finish idS ok =>
    cases hl : lookupSession reg idS with
    | none => simpa [stepOp, hl] using hnone
    | some s =>
      by_cases hok : ok
      · simp only [stepOp, hl, hok, if_true, deleteSession]
        unfold lookupSession
        have hfind : (reg.filter (fun p => !(p.1 == idS))).find? (fun p => p.1 == id) = none := by
          rw [List.find?_eq_none]
          intro p hp'
          simp [hall p (List.mem_of_mem_filter hp')]
        rw [hfind]
        rfl
      · simpa [stepOp, hl, hok] using hnone
  | readOnly => simpa [stepOp] using hnone

theorem lookup_finish_true_none (m : ℤ) (reg : List (String × SessionState)) (id : String) :
    lookupSession (stepOp m reg (.finish id true)) id = none := by
  cases hl : lookupSession reg id with
  | none => simp [stepOp, hl]
  | some s =>
    simp only [stepOp, hl, if_true]
    exact lookupSession_filter_self reg id

theorem foldl_lookup_none (m : ℤ) (ops : List Op) (id : String)
    (hops : ∀ op ∈ ops, op.isStartOf id = false) :
    ∀ reg, lookupSession reg id = none →
      lookupSession (ops.foldl (stepOp m) reg) id = none := by
  induction ops with
  | nil => intro reg h; simpa using h
  | cons op ops ih =>
    intro reg h
    exact ih (fun o ho => hops o (List.mem_cons_of_mem _ ho)) _
      (lookup_stepOp_none m reg op id h (hops op (List.mem_cons_self _ _)))

/-- C6: for every sequence of operations run from the empty registry with a
non-negative configured follow-up maximum, every stored session keeps a
non-negative follow-up budget and a cursor that never exceeds its plan
length; and after a successful finish of a session id, that id is no longer
retrievable by any subsequent sequence of operations none of which starts a
fresh session under the very same id (the generator `Date.now()_random`
never reuses one). -/
theorem session_registry_invariants (m : ℤ) (hm : 0 ≤ m) :
    (∀ ops : List Op, ∀ p ∈ runOps m ops,
      0 ≤ p.2.followupsLeft ∧ p.2.idx ≤ p.2.planQuestions.length)
    ∧ (∀ (ops₁ ops₂ : List Op) (id : String),
        (∀ op ∈ ops₂, op.isStartOf id = false) →
        lookupSession (runOps m (ops₁ ++ Op.finish id true :: ops₂)) id = none) := by
  constructor
  · intro ops
    exact foldl_stepOp_inv m hm ops [] (by simp)
  · intro ops₁ ops₂ id hfresh
    unfold runOps
    rw [List.foldl_append, List.foldl_cons]
    exact foldl_lookup_none m ops₂ id hfresh _
      (lookup_finish_true_none m _ id)

/-- C6 witness: a start/answer/finish/answer trace on session `s1`; after
the successful finish the id is gone even though a later answer targets it.
-/
theorem session_registry_invariants_witness :
    (0 : ℤ) ≤ 1
    ∧ (∀ op ∈ [Op.answer "s1" "late" (.error "x")], op.isStartOf "s1" = false)
    ∧ lookupSession
        (runOps 1
          ([Op.start "s1" "Jane" (MatrixT.mk "role" [SkillDef.mk "A" 1])
              [PlanQ.mk "A" "Q?"] "t0",
            Op.answer "s1" "[SKIPPED]" (.ok (FollowupDecision.mk false none))]
            ++ Op.finish "s1" true :: [Op.answer "s1" "late" (.error "x")]))
        "s1" = none :=
  ⟨by decide, by decide,
    (session_registry_invariants 1 (by decide)).2
      [Op.start "s1" "Jane" (MatrixT.mk "role" [SkillDef.mk "A" 1])
          [PlanQ.mk "A" "Q?"] "t0",
        Op.answer "s1" "[SKIPPED]" (.ok (FollowupDecision.mk false none))]
      [Op.answer "s1" "late" (.error "x")] "s1" (by decide)⟩

end InterviewAgent
